import Mathlib

/-
  Verification of the coal-mine persistence layer (redis_store.py and
  mongo_store.py) against its natural-language specification.

  The two backends are shallowly embedded: the redis store as explicit
  state passing over a structure of hashes, lists, sorted sets and sets
  (association lists keyed by redis key names), the mongo store as a list
  of documents.  Fallible operations return Except Err.  Timestamps and
  sorted-set scores are modelled as rationals.
-/

set_option maxRecDepth 4000

namespace CoalMine

/-- Association list with string keys; lookup returns the first binding. -/
abbrev AList (β : Type) := List (String × β)

/-- Lookup in an association list. -/
def aget {β : Type} : AList β → String → Option β
  | [], _ => none
  | (k, v) :: t, k' => if k = k' then some v else aget t k'

/-- Set a key in an association list, replacing an existing binding in place
or appending a new one (Python dict insertion-order semantics). -/
def aset {β : Type} : AList β → String → β → AList β
  | [], k, v => [(k, v)]
  | (k0, v0) :: t, k, v =>
    if k0 = k then (k, v) :: t else (k0, v0) :: aset t k v

/-- Remove every binding of a key from an association list. -/
def adel {β : Type} (l : AList β) (k : String) : AList β :=
  l.filter (fun p => p.1 ≠ k)

/-- Error kinds raised by the embedded code.  notFound is KeyError raised with
a "No such canary" message, conflict is the Exception raised on duplicate slug
or id, and typeError, valueError, attrError, dictKeyError model the
corresponding unguarded Python exceptions. -/
inductive Err where
  | notFound
  | conflict
  | typeError
  | valueError
  | attrError
  | dictKeyError
deriving Repr, DecidableEq

/-- A Python value appearing in a canary dict passed to create and update:
strings, ints, floats (modelled as rationals), booleans, datetimes (modelled
by their timestamp as a rational), lists of email strings, history entry
lists, and the absent sentinel None. -/
inductive PyVal where
  | str (s : String)
  | int (n : Int)
  | float (q : Rat)
  | bool (b : Bool)
  | time (t : Rat)
  | strlist (es : List String)
  | hist (hs : List (Rat × String))
  | none
deriving Repr, DecidableEq

/-- Python truthiness of a PyVal. -/
def PyVal.truthy : PyVal → Bool
  | .str s => s ≠ ""
  | .int n => n ≠ 0
  | .float q => q ≠ 0
  | .bool b => b
  | .time _ => true
  | .strlist es => ¬es.isEmpty
  | .hist hs => ¬hs.isEmpty
  | .none => false

/-- Serialization of a PyVal by the redis client (str plus decode_responses):
the str conversion applied by the era-appropriate client to non-string
values.  Floats and composite values never reach a hash field in the
modelled paths. -/
def PyVal.serialize : PyVal → String
  | .str s => s
  | .int n => toString n
  | .float q => toString q.num ++ "/" ++ toString q.den
  | .bool b => if b then "True" else "False"
  | .time _ => "datetime"
  | .strlist _ => "list"
  | .hist _ => "hist"
  | .none => "None"

/-- The state of the redis server: hashes (key to field-value map), lists,
sorted sets (key to member-score map) and plain sets.  A key absent from all
four maps does not exist. -/
structure RState where
  hashes : AList (AList String)
  lists : AList (List String)
  zsets : AList (AList Rat)
  rsets : AList (List String)
deriving Repr, DecidableEq

/-- The empty redis database. -/
def emptyR : RState := ⟨[], [], [], []⟩

/-- EXISTS key: the key is present in some structure. -/
def keyExists (s : RState) (k : String) : Bool :=
  (aget s.hashes k).isSome || (aget s.lists k).isSome ||
  (aget s.zsets k).isSome || (aget s.rsets k).isSome

/-- HGET key field. -/
def hget (s : RState) (k f : String) : Option String :=
  (aget s.hashes k).bind (fun h => aget h f)

/-- HEXISTS key field. -/
def hexists (s : RState) (k f : String) : Bool :=
  (hget s k f).isSome

/-- HSET key field value (creates the hash if missing). -/
def hset (s : RState) (k f v : String) : RState :=
  let h := (aget s.hashes k).getD []
  { s with hashes := aset s.hashes k (aset h f v) }

/-- HDEL key field; an emptied hash ceases to exist. -/
def hdel (s : RState) (k f : String) : RState :=
  match aget s.hashes k with
  | Option.none => s
  | some h =>
    if (adel h f).isEmpty then { s with hashes := adel s.hashes k }
    else { s with hashes := aset s.hashes k (adel h f) }

/-- HGETALL key. -/
def hgetall (s : RState) (k : String) : AList String :=
  (aget s.hashes k).getD []

/-- HMSET key mapping: set each field in turn. -/
def hmset (s : RState) (k : String) (entries : AList String) : RState :=
  entries.foldl (fun s p => hset s k p.1 p.2) s

/-- LRANGE key 0 -1. -/
def lrange (s : RState) (k : String) : List String :=
  (aget s.lists k).getD []

/-- RPUSH key values. -/
def rpush (s : RState) (k : String) (vs : List String) : RState :=
  { s with lists := aset s.lists k ((aget s.lists k).getD [] ++ vs) }

/-- DEL key: remove the key from every structure. -/
def delKey (s : RState) (k : String) : RState :=
  { hashes := adel s.hashes k, lists := adel s.lists k,
    zsets := adel s.zsets k, rsets := adel s.rsets k }

/-- SADD key member. -/
def sadd (s : RState) (k m : String) : RState :=
  let cur := (aget s.rsets k).getD []
  if cur.contains m then s
  else { s with rsets := aset s.rsets k (cur ++ [m]) }

/-- SREM key member; an emptied set ceases to exist. -/
def srem (s : RState) (k m : String) : RState :=
  match aget s.rsets k with
  | Option.none => s
  | some cur =>
    if (cur.filter (fun x => x ≠ m)).isEmpty then { s with rsets := adel s.rsets k }
    else { s with rsets := aset s.rsets k (cur.filter (fun x => x ≠ m)) }

/-- SISMEMBER key member. -/
def smember (s : RState) (k m : String) : Bool :=
  ((aget s.rsets k).getD []).contains m

/-- SUNION keys: union of the named sets, first occurrence kept. -/
def sunion (s : RState) (ks : List String) : List String :=
  ks.foldl (fun acc k =>
    acc ++ (((aget s.rsets k).getD []).filter (fun m => ¬acc.contains m))) []

/-- ZADD key score member (replaces the score of an existing member). -/
def zadd (s : RState) (k : String) (score : Rat) (m : String) : RState :=
  let z := (aget s.zsets k).getD []
  { s with zsets := aset s.zsets k (aset z m score) }

/-- ZREM key member; an emptied sorted set ceases to exist. -/
def zrem (s : RState) (k m : String) : RState :=
  match aget s.zsets k with
  | Option.none => s
  | some z =>
    if (adel z m).isEmpty then { s with zsets := adel s.zsets k }
    else { s with zsets := aset s.zsets k (adel z m) }

/-- ZSCORE key member. -/
def zscore (s : RState) (k m : String) : Option Rat :=
  (aget s.zsets k).bind (fun z => aget z m)

/-- Insert into a list sorted by the boolean comparison. -/
def insertBy {α : Type} (le : α → α → Bool) (a : α) : List α → List α
  | [] => [a]
  | b :: t => if le a b then a :: b :: t else b :: insertBy le a t

/-- Insertion sort by a boolean comparison (models the server-side ordering
of sorted-set range queries and the document store's sort clause). -/
def sortBy {α : Type} (le : α → α → Bool) : List α → List α
  | [] => []
  | a :: t => insertBy le a (sortBy le t)

/-- Redis ordering of sorted-set entries: by score, ties by member string. -/
def zentryLe (a b : String × Rat) : Bool :=
  a.2 < b.2 || (a.2 = b.2 && decide (a.1 ≤ b.1))

/-- ZRANGE key 0 -1 WITHSCORES: all entries in score order. -/
def zrangeWithScores (s : RState) (k : String) : List (String × Rat) :=
  sortBy zentryLe ((aget s.zsets k).getD [])

/-- ZRANGEBYSCORE key -inf +inf: all members in score order. -/
def zrangebyscoreAll (s : RState) (k : String) : List String :=
  (zrangeWithScores s k).map (fun p => p.1)

/-- Value of a nonempty all-digit character sequence, none otherwise. -/
def digitsToNat : List Char → Option Nat
  | [] => none
  | cs =>
    cs.foldl (fun acc c =>
      acc.bind (fun n =>
        if c.isDigit then some (n * 10 + (c.toNat - 48)) else none))
      (some 0)

/-- Surrounding whitespace of a character sequence, stripped. -/
def stripWS (cs : List Char) : List Char :=
  ((cs.dropWhile Char.isWhitespace).reverse.dropWhile Char.isWhitespace).reverse

/-- Model of the Python builtin int applied to a string: surrounding
whitespace stripped, an optional sign, then decimal digits (digit-group
underscores are not modelled). -/
def pyIntParse (s : String) : Option Int :=
  match stripWS s.toList with
  | '+' :: rest => (digitsToNat rest).map Int.ofNat
  | '-' :: rest => (digitsToNat rest).map (fun n => -(n : Int))
  | cs => (digitsToNat cs).map Int.ofNat

/-- 10 raised to an integer power, as a rational. -/
def pow10 : Int → Rat
  | Int.ofNat n => (10 : Rat) ^ n
  | Int.negSucc n => 1 / (10 : Rat) ^ (n + 1)

/-- Exponent suffix of a float literal: empty means exponent 0; otherwise
the letter e or E, an optional sign, and decimal digits. -/
def parseExpSuffix : List Char → Option Int
  | [] => some 0
  | e :: rest =>
    if e = 'e' || e = 'E' then
      match rest with
      | '+' :: ds => (digitsToNat ds).map Int.ofNat
      | '-' :: ds => (digitsToNat ds).map (fun n => -(n : Int))
      | ds => (digitsToNat ds).map Int.ofNat
    else none

/-- Model of the Python builtin float applied to a string, returning the
exact rational value: whitespace stripped, optional sign, digits with an
optional fractional part (at least one digit overall), optional exponent
(inf and nan literals and digit-group underscores are not modelled). -/
def pyFloatParse (s : String) : Option Rat :=
  let cs := stripWS s.toList
  let (sign, cs) : Rat × List Char :=
    match cs with
    | '+' :: r => (1, r)
    | '-' :: r => (-1, r)
    | _ => (1, cs)
  let ip := cs.takeWhile Char.isDigit
  let rest := cs.dropWhile Char.isDigit
  match rest with
  | '.' :: r2 =>
    let fp := r2.takeWhile Char.isDigit
    let rest2 := r2.dropWhile Char.isDigit
    if ip.isEmpty && fp.isEmpty then none
    else
      let ipv : Rat := ((digitsToNat ip).getD 0 : Nat)
      let fpv : Rat := ((digitsToNat fp).getD 0 : Nat)
      let mant : Rat := ipv + fpv / (10 : Rat) ^ fp.length
      (parseExpSuffix rest2).map (fun e => sign * mant * pow10 e)
  | _ =>
    match digitsToNat ip with
    | Option.none => none
    | some n => (parseExpSuffix rest).map (fun e => sign * (n : Rat) * pow10 e)

/-- A coerced periodicity value: the most specific of int, float, string. -/
inductive PParsed where
  | int (n : Int)
  | float (q : Rat)
  | str (s : String)
deriving Repr, DecidableEq

/-- The specification's description of the periodicity coercion, stated
independently of the load code: attempt an integer parse, then a
floating-point parse, then fall back to the original text, returning the
result of the first parse that succeeds. -/
def specPeriodicityCoerce (p : String) : PParsed :=
  match pyIntParse p with
  | some n => .int n
  | Option.none =>
    match pyFloatParse p with
    | some q => .float q
    | Option.none => .str p

/-- The dict returned by RedisCanary.load, shallowly embedded: the raw
scalar-hash fields are kept in fields (in the Python dict the converted
paused, late, periodicity and deadline values overwrite or extend these raw
entries; here the conversions are carried in typed components), emails and
history are the loaded sub-structures, paused and late are the decoded
booleans, periodicity is present when the hash has that field, and deadline
is present exactly when the canary is not paused. -/
structure Loaded where
  id : String
  fields : AList String
  emails : List String
  history : List (Rat × String)
  paused : Bool
  late : Bool
  periodicity : Option PParsed
  deadline : Option Rat
deriving Repr, DecidableEq

/-- bool(int(v)) on an optional stored flag string: absent stays absent, a
non-numeric string raises ValueError, otherwise nonzero means true. -/
def decodeFlag : Option String → Except Err (Option Bool)
  | Option.none => .ok Option.none
  | some v =>
    match pyIntParse v with
    | some n => .ok (some (n ≠ 0))
    | Option.none => .error .valueError

/-- RedisCanary.load: inside one transaction, fail with KeyError when the
canary's hash key does not exist, otherwise read the scalar hash, the
emails list, the history sorted set with scores, and the canary's score in
the deadlines sorted set; then decode paused and late as booleans
defaulting to false, coerce periodicity (int parse, then float parse, then
the original text), and, when not paused, convert the deadline score with
float(score) — which raises TypeError when the score is absent. -/
def redisLoad (ns id : String) (s : RState) : Except Err Loaded := do
  let key := ns ++ ":" ++ id
  let emailsK := key ++ ":emails"
  let historyK := key ++ ":history"
  if ¬keyExists s key then throw .notFound
  let data := hgetall s key
  let em := lrange s emailsK
  let hs := zrangeWithScores s historyK
  let dl := zscore s (ns ++ ":deadlines") id
  let history := hs.map (fun p => (p.2, p.1))
  let pausedOpt ← decodeFlag (aget data "paused")
  let lateOpt ← decodeFlag (aget data "late")
  let paused := pausedOpt.getD false
  let late := lateOpt.getD false
  let periodicity :=
    match aget data "periodicity" with
    | Option.none => Option.none
    | some p =>
      some (match pyIntParse p with
            | some n => PParsed.int n
            | Option.none =>
              match pyFloatParse p with
              | some q => PParsed.float q
              | Option.none => PParsed.str p)
  let deadline ←
    if pausedOpt.getD false then pure Option.none
    else
      match dl with
      | some t => pure (some t)
      | Option.none => throw .typeError
  return { id := id, fields := data, emails := em, history := history,
           paused := paused, late := late, periodicity := periodicity,
           deadline := deadline }

/-- RedisCanary.load_brief: HMGET of name and slug; the hmget reply list is
always of length two and therefore truthy, so no KeyError is raised even
for a missing canary; the result dict binds name, id and slug in that
order. -/
def redisLoadBrief (ns id : String) (s : RState) : AList (Option String) :=
  let key := ns ++ ":" ++ id
  [("name", hget s key "name"), ("id", some id), ("slug", hget s key "slug")]

/-- The email list carried by a PyVal (the only values reaching the rpush
in save are email string lists). -/
def PyVal.asStrList : PyVal → List String
  | .strlist es => es
  | _ => []

/-- The history entries carried by a PyVal. -/
def PyVal.asHist : PyVal → List (Rat × String)
  | .hist hs => hs
  | _ => []

/-- The timestamp of a datetime PyVal; on any other value the attribute
access value.timestamp() raises AttributeError. -/
def PyVal.asTime : PyVal → Option Rat
  | .time t => some t
  | _ => Option.none

/-- RedisCanary.save: check phase — with the key present, create fails with
a duplicate-slug Exception; with the key absent, a non-create save fails
with KeyError; a create whose slug is already bound in the slugs hash fails
with a duplicate-id Exception.  Atomic section — rewrite the slug binding
when a slug is given; for every field set to None, HDEL the field from the
canary hash unless it is emails, history or deadline, where emails and
history instead issue DEL of the canary's primary key together with a key
literally named emails or history (the argument passed is the dict key, not
the sub-structure key), and deadline issues ZREM from the deadlines sorted
set; non-None fields accumulate in data; drop id; read paused, late and pop
deadline from data; when a nonempty emails list is present, DEL and RPUSH
the emails key; when history is present, DEL the history key and ZADD each
entry by timestamp; when late is given, SADD to the late set (truthy) or
the ontime set (falsy) and store 1 or 0; when paused is given truthy, SADD
to the paused set and ZREM from deadlines, and when given falsy, SADD to
the active set and ZADD the popped deadline's timestamp to deadlines —
raising AttributeError when no datetime deadline was supplied, which aborts
the transaction before any queued write executes; finally HMSET the
remaining data onto the canary hash when nonempty. -/
def redisSave (ns id : String) (canary : AList PyVal) (create : Bool)
    (s0 : RState) : Except Err RState := do
  let key := ns ++ ":" ++ id
  let emailsK := key ++ ":emails"
  let historyK := key ++ ":history"
  let slugsK := ns ++ ":slugs"
  let deadlinesK := ns ++ ":deadlines"
  if keyExists s0 key then
    if create then throw .conflict
  else
    if ¬create then throw .notFound
  if create then
    match aget canary "slug" with
    | Option.none => throw .dictKeyError
    | some slugV => if hexists s0 slugsK slugV.serialize then throw .conflict
  let s := s0
  let s :=
    match aget canary "slug" with
    | some slugV => hset s slugsK slugV.serialize id
    | Option.none => s
  let step := fun (acc : RState × AList PyVal) (kv : String × PyVal) =>
    let (s, data) := acc
    let (k, v) := kv
    if v = PyVal.none then
      if k ≠ "emails" && k ≠ "history" && k ≠ "deadline" then
        (hdel s key k, data)
      else if k = "emails" || k = "history" then
        (delKey (delKey s key) k, data)
      else
        (zrem s deadlinesK id, data)
    else (s, aset data k v)
  let sd := canary.foldl step (s, [])
  let s := sd.1
  let data := adel sd.2 "id"
  let paused := aget data "paused"
  let late := aget data "late"
  let deadline := aget data "deadline"
  let data := adel data "deadline"
  let sd :=
    match aget data "emails" with
    | some ev =>
      if ev.truthy then
        (rpush (delKey s emailsK) emailsK ev.asStrList, adel data "emails")
      else (s, adel data "emails")
    | Option.none => (s, data)
  let s := sd.1
  let data := sd.2
  let sd :=
    match aget data "history" with
    | some hv =>
      (hv.asHist.foldl (fun (s : RState) (p : Rat × String) => zadd s historyK p.1 p.2) (delKey s historyK),
       adel data "history")
    | Option.none => (s, data)
  let s := sd.1
  let data := sd.2
  let sd :=
    match late with
    | some lv =>
      if lv.truthy then
        (sadd s (ns ++ ":late") id, aset data "late" (PyVal.int 1))
      else
        (sadd s (ns ++ ":ontime") id, aset data "late" (PyVal.int 0))
    | Option.none => (s, data)
  let s := sd.1
  let data := sd.2
  let sd ←
    match paused with
    | some pv =>
      if pv.truthy then
        pure (zrem (sadd s (ns ++ ":paused") id) deadlinesK id,
              aset data "paused" (PyVal.int 1))
      else
        match deadline with
        | some d =>
          match d.asTime with
          | some t =>
            pure (zadd (sadd s (ns ++ ":active") id) deadlinesK t id,
                  aset data "paused" (PyVal.int 0))
          | Option.none => throw Err.attrError
        | Option.none => throw Err.attrError
    | Option.none => pure (s, data)
  let s := sd.1
  let data := sd.2
  if data.isEmpty then return s
  else return hmset s key (data.map (fun p => (p.1, p.2.serialize)))

/-- RedisStore.create: save with create under the id taken from the canary
dict (a dict without an id raises KeyError). -/
def redisStoreCreate (ns : String) (canary : AList PyVal) (s : RState) :
    Except Err RState :=
  match aget canary "id" with
  | some idv => redisSave ns idv.serialize canary true s
  | Option.none => .error .dictKeyError

/-- RedisStore.update: save without create. -/
def redisUpdate (ns id : String) (updates : AList PyVal) (s : RState) :
    Except Err RState :=
  redisSave ns id updates false s

/-- RedisCanary.delete: read the record's slug field, then remove the id
from the active, paused, late and ontime sets and the deadlines sorted set,
HDEL the slug from the slugs hash (a missing record gives slug None, which
the era-appropriate client stringifies to the field name None), and DEL the
history, emails and primary keys.  No existence check is performed and no
error is ever raised. -/
def redisDelete (ns id : String) (s : RState) : RState :=
  let key := ns ++ ":" ++ id
  let slug := hget s key "slug"
  let s := srem s (ns ++ ":active") id
  let s := srem s (ns ++ ":paused") id
  let s := srem s (ns ++ ":late") id
  let s := srem s (ns ++ ":ontime") id
  let s := zrem s (ns ++ ":deadlines") id
  let s := hdel s (ns ++ ":slugs") (match slug with
                                    | some sl => sl
                                    | Option.none => "None")
  let s := delKey s (key ++ ":history")
  let s := delKey s (key ++ ":emails")
  delKey s key

/-- RedisStore.find_identifier: HGET the slugs hash; a missing binding
raises KeyError. -/
def redisFindIdentifier (ns slug : String) (s : RState) : Except Err String :=
  match hget s (ns ++ ":slugs") slug with
  | some id => .ok id
  | Option.none => .error .notFound

/-- One element produced by RedisStore.list: a full loaded record in
verbose mode, or the brief dict otherwise. -/
inductive ListItem where
  | full (c : Loaded)
  | brief (d : AList (Option String))
deriving Repr, DecidableEq

/-- search.match applied to a field of a verbose record: the dict access
raises KeyError when the hash lacks the field. -/
def matchRequired (f : String → Bool) : Option String → Except Err Bool
  | some v => .ok (f v)
  | Option.none => .error .dictKeyError

/-- search.match applied to a field of a brief record: the entry is always
present but may hold None, on which re.match raises TypeError. -/
def matchBrief (f : String → Bool) : Option (Option String) → Except Err Bool
  | some (some v) => .ok (f v)
  | some Option.none => .error .typeError
  | Option.none => .error .dictKeyError

/-- The loop body of RedisStore.list for one id: load the record with the
selected method, apply the search skip (matching name, then slug, then id,
with Python short-circuit evaluation), and in brief mode delete the slug
entry from the yielded dict.  Returns none for a record skipped by search;
errors of the load or of the match propagate. -/
def processOne (ns : String) (verbose : Bool) (search : Option (String → Bool))
    (s : RState) (id : String) : Except Err (Option ListItem) :=
  if verbose then
    match redisLoad ns id s with
    | .error e => .error e
    | .ok c =>
      match search with
      | Option.none => .ok (some (.full c))
      | some f =>
        match matchRequired f (aget c.fields "name") with
        | .error e => .error e
        | .ok m1 =>
          if m1 then .ok (some (.full c))
          else
            match matchRequired f (aget c.fields "slug") with
            | .error e => .error e
            | .ok m2 =>
              if m2 then .ok (some (.full c))
              else if f id then .ok (some (.full c))
              else .ok Option.none
  else
    match search with
    | Option.none => .ok (some (.brief (adel (redisLoadBrief ns id s) "slug")))
    | some f =>
      match matchBrief f (aget (redisLoadBrief ns id s) "name") with
      | .error e => .error e
      | .ok m1 =>
        if m1 then .ok (some (.brief (adel (redisLoadBrief ns id s) "slug")))
        else
          match matchBrief f (aget (redisLoadBrief ns id s) "slug") with
          | .error e => .error e
          | .ok m2 =>
            if m2 then .ok (some (.brief (adel (redisLoadBrief ns id s) "slug")))
            else if f id then
              .ok (some (.brief (adel (redisLoadBrief ns id s) "slug")))
            else .ok Option.none

/-- The yields of RedisStore.list over a list of ids, in order; the lazy
generator is modelled by the fully consumed sequence. -/
def listLoop (ns : String) (verbose : Bool) (search : Option (String → Bool))
    (s : RState) : List String → Except Err (List ListItem)
  | [] => .ok []
  | id :: rest => do
    let item ← processOne ns verbose search s id
    let tail ← listLoop ns verbose search s rest
    match item with
    | some it => return it :: tail
    | Option.none => return tail

/-- The set keys RedisStore.list unions: both of paused and active when the
paused filter is omitted, else the one matching the filter, followed by
both of late and ontime when the late filter is omitted, else the one
matching the filter. -/
def listSetKeys (ns : String) (pausedF lateF : Option Bool) : List String :=
  (match pausedF with
   | Option.none => [ns ++ ":paused", ns ++ ":active"]
   | some true => [ns ++ ":paused"]
   | some false => [ns ++ ":active"]) ++
  (match lateF with
   | Option.none => [ns ++ ":late", ns ++ ":ontime"]
   | some true => [ns ++ ":late"]
   | some false => [ns ++ ":ontime"])

/-- RedisStore.list: SUNION of the selected membership sets, then one load
per id with the in-process search filter. -/
def redisList (ns : String) (verbose : Bool) (pausedF lateF : Option Bool)
    (search : Option (String → Bool)) (s : RState) :
    Except Err (List ListItem) :=
  listLoop ns verbose search s (sunion s (listSetKeys ns pausedF lateF))

/-- RedisStore.upcoming_deadlines: every member of the deadlines sorted set
in score order, each fully loaded. -/
def redisUpcomingDeadlines (ns : String) (s : RState) :
    Except Err (List Loaded) :=
  (zrangebyscoreAll s (ns ++ ":deadlines")).mapM (fun id => redisLoad ns id s)

/-- A BSON value stored in a canary document: strings, numbers (ints and
floats as rationals), booleans, datetimes (as timestamps), email string
lists and history entry lists. -/
inductive MVal where
  | str (s : String)
  | num (q : Rat)
  | bool (b : Bool)
  | time (t : Rat)
  | strlist (es : List String)
  | hist (hs : List (Rat × String))
deriving Repr, DecidableEq

/-- A canary document: field names to values.  The server-assigned primary
key field is not modelled; every modelled read projects it away. -/
abbrev MDoc := AList MVal

/-- The canaries collection, in insertion order. -/
abbrev MongoState := List MDoc

/-- The query filter spec of a find: equality on paused and late when those
filters are given, and the three-way or of the search pattern over name,
slug and id (a regex only matches string fields; a missing or non-string
field does not match). -/
def mongoDocMatches (pausedF lateF : Option Bool)
    (search : Option (String → Bool)) (d : MDoc) : Bool :=
  (match pausedF with
   | Option.none => true
   | some b => aget d "paused" == some (MVal.bool b)) &&
  (match lateF with
   | Option.none => true
   | some b => aget d "late" == some (MVal.bool b)) &&
  (match search with
   | Option.none => true
   | some f =>
     (match aget d "name" with | some (MVal.str v) => f v | _ => false) ||
     (match aget d "slug" with | some (MVal.str v) => f v | _ => false) ||
     (match aget d "id" with | some (MVal.str v) => f v | _ => false))

/-- Ascending document-store ordering on an optional sort-key value:
missing values first, then by a fixed type rank, numbers and datetimes by
value, strings lexicographically, booleans false first; composite values
compare equal within their rank (the sort clause is only ever used with the
numeric deadline field). -/
def mvalLe : Option MVal → Option MVal → Bool
  | Option.none, _ => true
  | some _, Option.none => false
  | some a, some b =>
    let rank : MVal → Nat
      | MVal.num _ => 0
      | MVal.time _ => 1
      | MVal.str _ => 2
      | MVal.bool _ => 3
      | MVal.strlist _ => 4
      | MVal.hist _ => 5
    if rank a ≠ rank b then decide (rank a ≤ rank b)
    else
      match a, b with
      | MVal.num x, MVal.num y => decide (x ≤ y)
      | MVal.time x, MVal.time y => decide (x ≤ y)
      | MVal.str x, MVal.str y => decide (x ≤ y)
      | MVal.bool x, MVal.bool y => !x || y
      | _, _ => true

/-- MongoStore.list: find with the paused, late and search filters, an
optional ascending sort on the order_by field, and — when not verbose — a
projection excluding the primary key and including only name and id.  The
retry wrapper around the cursor is the identity in this failure-free
model. -/
def mongoList (verbose : Bool) (pausedF lateF : Option Bool)
    (search : Option (String → Bool)) (orderBy : Option String)
    (db : MongoState) : List MDoc :=
  let docs := db.filter (mongoDocMatches pausedF lateF search)
  let docs :=
    match orderBy with
    | Option.none => docs
    | some k => sortBy (fun d1 d2 => mvalLe (aget d1 k) (aget d2 k)) docs
  if verbose then docs
  else docs.map (fun d => d.filter (fun kv => kv.1 = "name" || kv.1 = "id"))

/-- MongoStore.upcoming_deadlines: list, verbose, non-paused, non-late,
ordered by deadline. -/
def mongoUpcomingDeadlines (db : MongoState) : List MDoc :=
  mongoList true (some false) (some false) Option.none (some "deadline") db

/-- MongoStore.create inserts the document unconditionally; the unique
index on slug declared by create_indexes in the constructor makes the store
reject an insert whose slug duplicates an existing document's slug (missing
slugs collide with missing slugs, as for a non-sparse unique index),
surfacing as a write failure. -/
def mongoCreate (canary : MDoc) (db : MongoState) : Except Err MongoState :=
  if db.any (fun d => aget d "slug" == aget canary "slug") then
    .error .conflict
  else .ok (db ++ [canary])

/-- MongoStore.get: find_one on id with the primary key projected away; no
match, or a falsy empty result document, raises KeyError. -/
def mongoGet (identifier : String) (db : MongoState) : Except Err MDoc :=
  match db.find? (fun d => aget d "id" == some (MVal.str identifier)) with
  | some d => if d.isEmpty then .error .notFound else .ok d
  | Option.none => .error .notFound

/-- The single-document update applied by update_one: remove the unset
keys, then set the set keys. -/
def applyUpdate (sets : AList MVal) (unsets : List String) (d : MDoc) : MDoc :=
  sets.foldl (fun d kv => aset d kv.1 kv.2) (unsets.foldl adel d)

/-- MongoStore.update: split the updates into a set document (non-None
values) and an unset document (fields set to None), then update_one on the
first document whose id matches; with no matching document the call is a
no-op and raises nothing. -/
def mongoUpdate (identifier : String) (updates : AList (Option MVal)) :
    MongoState → MongoState
  | [] => []
  | d :: rest =>
    if aget d "id" == some (MVal.str identifier) then
      applyUpdate (updates.filterMap (fun kv => kv.2.map (fun v => (kv.1, v))))
        ((updates.filter (fun kv => kv.2.isNone)).map (fun kv => kv.1)) d :: rest
    else d :: mongoUpdate identifier updates rest

/-- MongoStore.delete: remove every document whose id matches; when the
removed count is zero, raise KeyError. -/
def mongoDelete (identifier : String) (db : MongoState) :
    Except Err MongoState :=
  let remaining := db.filter (fun d => ¬(aget d "id" == some (MVal.str identifier)))
  if remaining.length = db.length then .error .notFound else .ok remaining

/-- MongoStore.find_identifier: find_one on slug; no match raises KeyError,
otherwise the result's id field is returned (a found document lacking an id
raises the dict KeyError). -/
def mongoFindIdentifier (slug : String) (db : MongoState) : Except Err MVal :=
  match db.find? (fun d => aget d "slug" == some (MVal.str slug)) with
  | some d =>
    if d.isEmpty then .error .notFound
    else
      match aget d "id" with
      | some v => .ok v
      | Option.none => .error .dictKeyError
  | Option.none => .error .notFound

/-- Whether a list item is the record of the given id. -/
def itemIsId (id : String) : ListItem → Bool
  | .full c => c.id = id
  | .brief d => aget d "id" == some (some id)

/- ------------------------------------------------------------------ -/
/- Helper lemmas about the embedded primitives.                        -/
/- ------------------------------------------------------------------ -/

theorem aget_aset {β : Type} (l : AList β) (k k' : String) (v : β) :
    aget (aset l k v) k' = if k = k' then some v else aget l k' := by
  induction l with
  | nil => simp [aset, aget]
  | cons hd t ih =>
    obtain ⟨k0, v0⟩ := hd
    by_cases hk : k0 = k
    · subst hk
      simp only [aset, if_pos rfl, aget]
      split <;> simp_all [aget]
    · simp only [aset, if_neg hk, aget, ih]
      by_cases h1 : k0 = k' <;> by_cases h2 : k = k' <;> simp_all

theorem aget_adel {β : Type} (l : AList β) (k k' : String) :
    aget (adel l k) k' = if k = k' then none else aget l k' := by
  induction l with
  | nil => simp [adel, aget]
  | cons hd t ih =>
    obtain ⟨k0, v0⟩ := hd
    simp only [adel, List.filter_cons, ne_eq] at ih ⊢
    by_cases hk : k0 = k
    · rw [if_neg (by simp [hk])]
      rw [ih]
      by_cases h2 : k = k' <;> simp_all [aget]
    · rw [if_pos (by simp [hk])]
      by_cases h1 : k0 = k' <;> by_cases h2 : k = k' <;> simp_all [aget]

theorem aget_filter_key {β : Type} (l : AList β) (p : String × β → Bool)
    (k : String) (hp : ∀ v, p (k, v) = true) :
    aget (l.filter p) k = aget l k := by
  induction l with
  | nil => simp [aget]
  | cons hd t ih =>
    obtain ⟨k0, v0⟩ := hd
    by_cases hk : k0 = k
    · subst hk
      simp [List.filter_cons, hp v0, aget, ih]
    · by_cases hkeep : p (k0, v0) <;> simp [List.filter_cons, hkeep, aget, hk, ih]

theorem smember_eq_not_mem (s : RState) (k m : String) :
    smember s k m = false ↔ m ∉ (aget s.rsets k).getD [] := by
  simp [smember, List.elem_eq_mem m, List.contains]

theorem smember_srem_self (s : RState) (k m : String) :
    smember (srem s k m) k m = false := by
  unfold srem
  cases h : aget s.rsets k with
  | none => simp [smember, h]
  | some cur =>
    dsimp only
    split
    · rw [smember_eq_not_mem]
      simp [aget_adel]
    · rw [smember_eq_not_mem]
      simp [aget_aset, List.mem_filter]

theorem smember_srem_of_false (s : RState) (k' m' k m : String)
    (h : smember s k m = false) : smember (srem s k' m') k m = false := by
  unfold srem
  cases h0 : aget s.rsets k' with
  | none => exact h
  | some cur =>
    rw [smember_eq_not_mem] at h ⊢
    dsimp only
    split
    · simp only [aget_adel]
      split
      · simp
      · exact h
    · simp only [aget_aset]
      by_cases hk : k' = k
      · subst hk
        rw [h0] at h
        simp only [if_pos rfl, Option.getD_some] at h ⊢
        intro hm
        exact h (List.mem_filter.1 hm).1
      · simpa [if_neg hk] using h

theorem rsets_zrem (s : RState) (k m : String) : (zrem s k m).rsets = s.rsets := by
  unfold zrem
  cases aget s.zsets k
  · rfl
  · dsimp only
    split <;> rfl

theorem rsets_hdel (s : RState) (k f : String) : (hdel s k f).rsets = s.rsets := by
  unfold hdel
  cases aget s.hashes k
  · rfl
  · dsimp only
    split <;> rfl

theorem zsets_srem (s : RState) (k m : String) : (srem s k m).zsets = s.zsets := by
  unfold srem
  cases aget s.rsets k
  · rfl
  · dsimp only
    split <;> rfl

theorem zsets_hdel (s : RState) (k f : String) : (hdel s k f).zsets = s.zsets := by
  unfold hdel
  cases aget s.hashes k
  · rfl
  · dsimp only
    split <;> rfl

theorem hashes_srem (s : RState) (k m : String) : (srem s k m).hashes = s.hashes := by
  unfold srem
  cases aget s.rsets k
  · rfl
  · dsimp only
    split <;> rfl

theorem hashes_zrem (s : RState) (k m : String) : (zrem s k m).hashes = s.hashes := by
  unfold zrem
  cases aget s.zsets k
  · rfl
  · dsimp only
    split <;> rfl

theorem smember_zrem (s : RState) (k' m' k m : String) :
    smember (zrem s k' m') k m = smember s k m := by
  simp [smember, rsets_zrem]

theorem smember_hdel (s : RState) (k' f k m : String) :
    smember (hdel s k' f) k m = smember s k m := by
  simp [smember, rsets_hdel]

theorem smember_delKey_of_false (s : RState) (k' k m : String)
    (h : smember s k m = false) : smember (delKey s k') k m = false := by
  rw [smember_eq_not_mem] at h ⊢
  show m ∉ (aget (adel s.rsets k') k).getD []
  rw [aget_adel]
  split
  · simp
  · exact h

theorem zscore_zrem_self (s : RState) (k m : String) :
    zscore (zrem s k m) k m = none := by
  unfold zrem
  cases h : aget s.zsets k with
  | none => simp [zscore, h]
  | some z =>
    dsimp only
    split
    · simp [zscore, aget_adel]
    · simp [zscore, aget_aset, aget_adel]

theorem zscore_srem (s : RState) (k' m' k m : String) :
    zscore (srem s k' m') k m = zscore s k m := by
  simp [zscore, zsets_srem]

theorem zscore_hdel (s : RState) (k' f k m : String) :
    zscore (hdel s k' f) k m = zscore s k m := by
  simp [zscore, zsets_hdel]

theorem zscore_delKey_of_none (s : RState) (k' k m : String)
    (h : zscore s k m = none) : zscore (delKey s k') k m = none := by
  show (aget (adel s.zsets k') k).bind _ = none
  rw [aget_adel]
  split
  · rfl
  · exact h

theorem hget_hdel_self (s : RState) (k f : String) :
    hget (hdel s k f) k f = none := by
  unfold hdel
  cases h : aget s.hashes k with
  | none => simp [hget, h]
  | some hsh =>
    dsimp only
    split
    · simp [hget, aget_adel]
    · simp [hget, aget_aset, aget_adel]

theorem hget_srem (s : RState) (k' m' k f : String) :
    hget (srem s k' m') k f = hget s k f := by
  simp [hget, hashes_srem]

theorem hget_zrem (s : RState) (k' m' k f : String) :
    hget (zrem s k' m') k f = hget s k f := by
  simp [hget, hashes_zrem]

theorem hget_delKey_of_none (s : RState) (k' k f : String)
    (h : hget s k f = none) : hget (delKey s k') k f = none := by
  show (aget (adel s.hashes k') k).bind _ = none
  rw [aget_adel]
  split
  · rfl
  · exact h

theorem keyExists_delKey_self (s : RState) (k : String) :
    keyExists (delKey s k) k = false := by
  simp [keyExists, delKey, aget_adel]

theorem exceptBind_ok {ε α β : Type} (x : Except ε α) (f : α → Except ε β)
    (c : β) : (x >>= f) = .ok c ↔ ∃ a, x = .ok a ∧ f a = .ok c := by
  cases x <;> simp [Bind.bind, Except.bind]

theorem redisLoad_id (ns i : String) (s : RState) (c : Loaded)
    (h : redisLoad ns i s = .ok c) : c.id = i := by
  unfold redisLoad at h
  by_cases hex : keyExists s (ns ++ ":" ++ i) = true
  · simp only [hex, not_true_eq_false, reduceIte] at h
    rw [exceptBind_ok] at h
    obtain ⟨u, hu, h⟩ := h
    rw [exceptBind_ok] at h
    obtain ⟨po, hpo, h⟩ := h
    rw [exceptBind_ok] at h
    obtain ⟨lo, hlo, h⟩ := h
    split at h
    · rw [exceptBind_ok] at h
      obtain ⟨y, hy, h⟩ := h
      simp only [pure, Except.pure, Except.ok.injEq] at h
      subst h
      rfl
    · split at h
      · rw [exceptBind_ok] at h
        obtain ⟨y, hy, h⟩ := h
        simp only [pure, Except.pure, Except.ok.injEq] at h
        subst h
        rfl
      · simp [throw, throwThe, MonadExceptOf.throw, Bind.bind, Except.bind] at h
  · simp [hex, throw, throwThe, MonadExceptOf.throw, Bind.bind, Except.bind] at h

theorem processOne_shape_full (ns : String) (f : Option (String → Bool))
    (s : RState) (i : String) (it : ListItem)
    (h : processOne ns true f s i = .ok (some it)) :
    ∃ c, redisLoad ns i s = .ok c ∧ it = .full c := by
  unfold processOne at h
  rw [if_pos rfl] at h
  split at h
  · simp at h
  · rename_i c heq
    refine ⟨c, heq, ?_⟩
    split at h
    · simp only [Except.ok.injEq, Option.some.injEq] at h
      exact h.symm
    · split at h
      · simp at h
      · split at h
        · simp only [Except.ok.injEq, Option.some.injEq] at h
          exact h.symm
        · split at h
          · simp at h
          · split at h
            · simp only [Except.ok.injEq, Option.some.injEq] at h
              exact h.symm
            · split at h
              · simp only [Except.ok.injEq, Option.some.injEq] at h
                exact h.symm
              · simp at h

theorem processOne_shape_brief (ns : String) (f : Option (String → Bool))
    (s : RState) (i : String) (it : ListItem)
    (h : processOne ns false f s i = .ok (some it)) :
    it = .brief (adel (redisLoadBrief ns i s) "slug") := by
  unfold processOne at h
  rw [if_neg (by simp)] at h
  split at h
  · simp only [Except.ok.injEq, Option.some.injEq] at h
    exact h.symm
  · split at h
    · simp at h
    · split at h
      · simp only [Except.ok.injEq, Option.some.injEq] at h
        exact h.symm
      · split at h
        · simp at h
        · split at h
          · simp only [Except.ok.injEq, Option.some.injEq] at h
            exact h.symm
          · split at h
            · simp only [Except.ok.injEq, Option.some.injEq] at h
              exact h.symm
            · simp at h

theorem listLoop_ok_mem (ns : String) (v : Bool) (f : Option (String → Bool))
    (s : RState) (ids : List String) (items : List ListItem)
    (h : listLoop ns v f s ids = .ok items) :
    ∀ it ∈ items, ∃ i ∈ ids, processOne ns v f s i = .ok (some it) := by
  induction ids generalizing items with
  | nil =>
    simp only [listLoop, Except.ok.injEq] at h
    subst h
    simp
  | cons i rest ih =>
    simp only [listLoop] at h
    rw [exceptBind_ok] at h
    obtain ⟨o, ho, h⟩ := h
    rw [exceptBind_ok] at h
    obtain ⟨tail, htail, h⟩ := h
    cases o with
    | some it0 =>
      simp only [pure, Except.pure, Except.ok.injEq] at h
      subst h
      intro it hit
      rcases List.mem_cons.1 hit with rfl | hmem
      · exact ⟨i, by simp, ho⟩
      · obtain ⟨j, hj, hpj⟩ := ih tail htail it hmem
        exact ⟨j, List.mem_cons_of_mem _ hj, hpj⟩
    | none =>
      simp only [pure, Except.pure, Except.ok.injEq] at h
      subst h
      intro it hit
      obtain ⟨j, hj, hpj⟩ := ih tail htail it hit
      exact ⟨j, List.mem_cons_of_mem _ hj, hpj⟩

theorem processOne_isId (ns : String) (v : Bool) (f : Option (String → Bool))
    (s : RState) (i id : String) (it : ListItem)
    (h : processOne ns v f s i = .ok (some it)) (hid : itemIsId id it = true) :
    i = id := by
  cases v with
  | true =>
    obtain ⟨c, hc, rfl⟩ := processOne_shape_full ns f s i it h
    have hci := redisLoad_id ns i s c hc
    simp only [itemIsId, decide_eq_true_eq] at hid
    rw [← hci, hid]
  | false =>
    have hb := processOne_shape_brief ns f s i it h
    subst hb
    simp only [itemIsId, redisLoadBrief, adel, List.filter] at hid
    simp only [aget] at hid
    simp at hid
    exact hid

theorem sunion_fold_mem (s : RState) (m : String) (ks : List String) :
    ∀ acc : List String,
      m ∈ ks.foldl (fun acc k =>
        acc ++ (((aget s.rsets k).getD []).filter (fun x => ¬acc.contains x))) acc →
      m ∈ acc ∨ ∃ k ∈ ks, smember s k m = true := by
  induction ks with
  | nil =>
    intro acc h
    exact Or.inl h
  | cons k rest ih =>
    intro acc h
    simp only [List.foldl_cons] at h
    rcases ih _ h with hmem | ⟨k0, hk0, hsm⟩
    · rcases List.mem_append.1 hmem with h1 | h2
      · exact Or.inl h1
      · refine Or.inr ⟨k, by simp, ?_⟩
        have hm' := (List.mem_filter.1 h2).1
        simp [smember, List.contains, List.elem_eq_mem, hm']
    · exact Or.inr ⟨k0, List.mem_cons_of_mem _ hk0, hsm⟩

theorem mem_sunion_exists (s : RState) (ks : List String) (m : String)
    (h : m ∈ sunion s ks) : ∃ k ∈ ks, smember s k m = true := by
  rcases sunion_fold_mem s m ks [] h with h0 | h1
  · cases h0
  · exact h1

theorem listSetKeys_mem (ns : String) (pf lf : Option Bool) (k : String)
    (h : k ∈ listSetKeys ns pf lf) :
    k = ns ++ ":paused" ∨ k = ns ++ ":active" ∨
    k = ns ++ ":late" ∨ k = ns ++ ":ontime" := by
  unfold listSetKeys at h
  rcases pf with _ | pb
  · rcases lf with _ | lb
    · simp at h; tauto
    · cases lb <;> simp at h <;> tauto
  · rcases lf with _ | lb
    · cases pb <;> simp at h <;> tauto
    · cases pb <;> cases lb <;> simp at h <;> tauto

theorem mem_insertBy {α : Type} (le : α → α → Bool) (a x : α) (l : List α) :
    x ∈ insertBy le a l ↔ x = a ∨ x ∈ l := by
  induction l with
  | nil => simp [insertBy]
  | cons b t ih =>
    simp only [insertBy]
    split
    · simp [List.mem_cons]
    · simp only [List.mem_cons, ih]
      tauto

theorem mem_sortBy {α : Type} (le : α → α → Bool) (x : α) (l : List α) :
    x ∈ sortBy le l ↔ x ∈ l := by
  induction l with
  | nil => simp [sortBy]
  | cons a t ih => simp [sortBy, mem_insertBy, ih, List.mem_cons]

theorem length_filter_lt {α : Type} (p : α → Bool) (l : List α) (d : α)
    (hd : d ∈ l) (hp : p d = false) : (l.filter p).length < l.length := by
  induction l with
  | nil => cases hd
  | cons a t ih =>
    rcases List.mem_cons.1 hd with rfl | hmem
    · simp only [List.filter_cons, hp, Bool.false_eq_true, if_false, reduceIte,
        List.length_cons]
      exact Nat.lt_succ_of_le (List.length_filter_le _ _)
    · by_cases hpa : p a = true
      · simpa [List.filter_cons, hpa] using Nat.succ_lt_succ (ih hmem)
      · simp only [List.filter_cons, hpa, Bool.false_eq_true, if_false,
          reduceIte, List.length_cons]
        exact Nat.lt_succ_of_lt (ih hmem)

theorem mongoUpdate_no_match (i : String) (u : AList (Option MVal))
    (db : MongoState)
    (h : ∀ d ∈ db, (aget d "id" == some (MVal.str i)) = false) :
    mongoUpdate i u db = db := by
  induction db with
  | nil => rfl
  | cons d rest ih =>
    simp only [mongoUpdate, h d (by simp), Bool.false_eq_true, if_false,
      reduceIte, List.cons.injEq, true_and]
    exact ih (fun d' hd' => h d' (List.mem_cons_of_mem _ hd'))

/- ------------------------------------------------------------------ -/
/- Claim theorems.                                                     -/
/- ------------------------------------------------------------------ -/

/-- C1: the claim that list filters restrict output to the matching
membership class fails on the key-value backend.  After creating the
non-paused canary a (a member of the active and ontime sets) and the paused
canary p, list with the paused filter set to true unions the paused set
with both late-classification sets, so the non-paused canary a is also
produced even though it is not in the paused set. -/
theorem C1_redis_list_paused_filter_not_restrictive :
    ((redisStoreCreate "cm"
        [("id", PyVal.str "a"), ("slug", PyVal.str "a"), ("name", PyVal.str "A"),
         ("paused", PyVal.bool false), ("late", PyVal.bool false),
         ("deadline", PyVal.time 100)] emptyR).bind
      (redisStoreCreate "cm"
        [("id", PyVal.str "p"), ("slug", PyVal.str "p"), ("name", PyVal.str "P"),
         ("paused", PyVal.bool true), ("late", PyVal.bool false)])).map
      (fun s =>
        (redisList "cm" false (some true) Option.none Option.none s,
         smember s "cm:paused" "a", smember s "cm:active" "a")) =
    Except.ok
      (Except.ok [ListItem.brief [("name", some "P"), ("id", some "p")],
                  ListItem.brief [("name", some "A"), ("id", some "a")]],
       false, true) := by rfl

/-- C2: the late and on-time membership sets do not stay disjoint.  After
creating the non-paused canary c with late false (a member of ontime) and
then updating late to true, save adds c to the late set without removing it
from the ontime set, so c is a member of both sets and is produced by both
list(late=true) and list(late=false). -/
theorem C2_redis_late_ontime_sets_overlap :
    ((redisStoreCreate "cm"
        [("id", PyVal.str "c"), ("slug", PyVal.str "c"), ("name", PyVal.str "C"),
         ("paused", PyVal.bool false), ("late", PyVal.bool false),
         ("deadline", PyVal.time 100)] emptyR).bind
      (redisUpdate "cm" "c" [("late", PyVal.bool true)])).map
      (fun s =>
        (smember s "cm:late" "c", smember s "cm:ontime" "c",
         redisList "cm" false Option.none (some true) Option.none s,
         redisList "cm" false Option.none (some false) Option.none s)) =
    Except.ok (true, true,
      Except.ok [ListItem.brief [("name", some "C"), ("id", some "c")]],
      Except.ok [ListItem.brief [("name", some "C"), ("id", some "c")]]) := by rfl

/-- C3: on the key-value backend upcoming_deadlines does not exclude late
canaries.  The canary c is non-paused and late (late set to true by an
update), yet it is produced by upcoming_deadlines, because the deadlines
sorted set holds every non-paused canary and save never removes a canary
from it when it becomes late. -/
theorem C3_redis_upcoming_deadlines_includes_late :
    ((redisStoreCreate "cm"
        [("id", PyVal.str "c"), ("slug", PyVal.str "c"), ("name", PyVal.str "C"),
         ("paused", PyVal.bool false), ("late", PyVal.bool false),
         ("deadline", PyVal.time 100)] emptyR).bind
      (redisUpdate "cm" "c" [("late", PyVal.bool true)])).map
      (fun s => (redisUpcomingDeadlines "cm" s).map
        (fun l => l.map (fun c => (c.id, c.paused, c.late)))) =
    Except.ok (Except.ok [("c", false, true)]) := by rfl

/-- C4: deleting an unbound identifier raises NotFound only on the document
backend.  On the key-value backend delete performs no existence check: on
the empty store it removes nothing and returns normally, leaving the store
unchanged, while the document backend raises NotFound as the claim
states. -/
theorem C4_redis_delete_missing_id_silently_succeeds :
    redisDelete "cm" "ghost" emptyR = emptyR ∧
    mongoDelete "ghost" ([] : MongoState) = Except.error Err.notFound :=
  ⟨rfl, rfl⟩

/-- C8: setting emails to the absent sentinel does not clear the emails
sub-structure.  The update issues DEL of the canary's primary key together
with a key literally named emails, so after the update the primary hash of
canary a is gone (its key no longer exists) while the emails list at
cm:a:emails still holds its entries. -/
theorem C8_redis_emails_none_deletes_primary_hash :
    ((redisStoreCreate "cm"
        [("id", PyVal.str "a"), ("slug", PyVal.str "a"), ("name", PyVal.str "A"),
         ("paused", PyVal.bool false), ("late", PyVal.bool false),
         ("deadline", PyVal.time 100), ("emails", PyVal.strlist ["x@y"])]
        emptyR).bind
      (redisUpdate "cm" "a" [("emails", PyVal.none)])).map
      (fun s => (aget s.hashes "cm:a", lrange s "cm:a:emails",
                 keyExists s "cm:a")) =
    Except.ok (Option.none, ["x@y"], false) := by rfl

/-- C7 counterexample: with verbose false the produced records do not carry
a slug field, although the stored canaries have slugs.  On the key-value
backend the brief dict has its slug entry deleted before being yielded; on
the document backend the projection includes only name and id. -/
theorem C7_brief_projection_lacks_slug :
    ((redisStoreCreate "cm"
        [("id", PyVal.str "a"), ("slug", PyVal.str "a"), ("name", PyVal.str "A"),
         ("paused", PyVal.bool false), ("late", PyVal.bool false),
         ("deadline", PyVal.time 100)] emptyR).map
      (fun s => redisList "cm" false Option.none Option.none Option.none s) =
      Except.ok (Except.ok
        [ListItem.brief [("name", some "A"), ("id", some "a")]])) ∧
    (aget [("name", some "A"), ("id", some "a")] "slug" =
      (Option.none : Option (Option String))) ∧
    ((mongoCreate
        [("id", MVal.str "c1"), ("name", MVal.str "N"), ("slug", MVal.str "s1"),
         ("paused", MVal.bool false), ("late", MVal.bool false),
         ("deadline", MVal.num 100)] []).map
      (mongoList false Option.none Option.none Option.none Option.none) =
      Except.ok [[("id", MVal.str "c1"), ("name", MVal.str "N")]]) ∧
    (aget [("id", MVal.str "c1"), ("name", MVal.str "N")] "slug" =
      Option.none) :=
  ⟨rfl, rfl, rfl, rfl⟩

/-- C6: updating an unbound identifier fails with NotFound on the key-value
backend, raised by the existence check at the start of save before any
write, while on the document backend the same call is a silent no-op that
returns the collection unchanged and raises nothing. -/
theorem C6_update_missing_id_notfound_vs_noop
    (ns id : String) (upd : AList PyVal) (s : RState)
    (hkey : keyExists s (ns ++ ":" ++ id) = false)
    (db : MongoState) (i : String) (u : AList (Option MVal))
    (hdb : ∀ d ∈ db, (aget d "id" == some (MVal.str i)) = false) :
    redisUpdate ns id upd s = .error .notFound ∧ mongoUpdate i u db = db := by
  constructor
  · unfold redisUpdate redisSave
    simp [hkey, throw, throwThe, MonadExceptOf.throw, Bind.bind, Except.bind]
  · exact mongoUpdate_no_match i u db hdb

/-- C6 witness: on the empty stores, updating the unbound id g raises
NotFound on the key-value backend and is a no-op on the document one. -/
theorem C6_witness :
    redisUpdate "cm" "g" [] emptyR = .error .notFound ∧
    mongoUpdate "g" [] ([] : MongoState) = [] :=
  C6_update_missing_id_notfound_vs_noop "cm" "g" [] emptyR rfl [] "g" []
    (by intro d hd; cases hd)

/-- C10: on the key-value backend, loading an existing record that is not
paused (paused field absent or stored 0) and has no entry in the deadlines
sorted set raises the unguarded conversion TypeError of float(None) rather
than returning the record without a deadline or a typed error. -/
theorem C10_load_nonpaused_missing_deadline_typeerror
    (ns id : String) (s : RState)
    (hex : keyExists s (ns ++ ":" ++ id) = true)
    (hp : aget (hgetall s (ns ++ ":" ++ id)) "paused" = Option.none ∨
          aget (hgetall s (ns ++ ":" ++ id)) "paused" = some "0")
    (hl : aget (hgetall s (ns ++ ":" ++ id)) "late" = Option.none)
    (hdl : zscore s (ns ++ ":deadlines") id = Option.none) :
    redisLoad ns id s = .error .typeError := by
  have h0 : pyIntParse "0" = some 0 := rfl
  unfold redisLoad
  simp only [hex, not_true_eq_false, reduceIte]
  rcases hp with hp | hp <;>
    simp [hp, hl, hdl, decodeFlag, h0, Bind.bind, Except.bind, pure,
      Except.pure, throw, throwThe, MonadExceptOf.throw]

/-- C10 witness: a store holding only the hash of canary x, with no paused
field and no deadlines entry, makes load fail with the TypeError. -/
theorem C10_witness :
    redisLoad "cm" "x" ⟨[("cm:x", [("name", "X")])], [], [], []⟩ =
      .error .typeError :=
  C10_load_nonpaused_missing_deadline_typeerror "cm" "x"
    ⟨[("cm:x", [("name", "X")])], [], [], []⟩ rfl (Or.inl rfl) rfl rfl

/-- C9: whenever load succeeds on a record whose hash stores a periodicity
value, the loaded periodicity is the coercion described by the
specification: an integer parse is attempted first, then a floating-point
parse, then the original text is kept — the result of the first parse that
succeeds. -/
theorem C9_load_periodicity_int_then_float_then_text
    (ns id p : String) (s : RState) (c : Loaded)
    (h : redisLoad ns id s = .ok c)
    (hper : aget (hgetall s (ns ++ ":" ++ id)) "periodicity" = some p) :
    c.periodicity = some (specPeriodicityCoerce p) := by
  unfold redisLoad at h
  by_cases hex : keyExists s (ns ++ ":" ++ id) = true
  · simp only [hex, not_true_eq_false, reduceIte] at h
    rw [exceptBind_ok] at h
    obtain ⟨u, hu, h⟩ := h
    rw [exceptBind_ok] at h
    obtain ⟨po, hpo, h⟩ := h
    rw [exceptBind_ok] at h
    obtain ⟨lo, hlo, h⟩ := h
    split at h
    · rw [exceptBind_ok] at h
      obtain ⟨y, hy, h⟩ := h
      simp only [pure, Except.pure, Except.ok.injEq] at h
      subst h
      simp only [hper]
      cases hip : pyIntParse p with
      | some n => simp [specPeriodicityCoerce, hip]
      | none =>
        cases hfp : pyFloatParse p with
        | some q => simp [specPeriodicityCoerce, hip, hfp]
        | none => simp [specPeriodicityCoerce, hip, hfp]
    · split at h
      · rw [exceptBind_ok] at h
        obtain ⟨y, hy, h⟩ := h
        simp only [pure, Except.pure, Except.ok.injEq] at h
        subst h
        simp only [hper]
        cases hip : pyIntParse p with
        | some n => simp [specPeriodicityCoerce, hip]
        | none =>
          cases hfp : pyFloatParse p with
          | some q => simp [specPeriodicityCoerce, hip, hfp]
          | none => simp [specPeriodicityCoerce, hip, hfp]
      · simp [throw, throwThe, MonadExceptOf.throw, Bind.bind, Except.bind] at h
  · simp [hex, throw, throwThe, MonadExceptOf.throw, Bind.bind, Except.bind] at h

/-- C9 witness: loading the canary y whose stored periodicity is the text
007 succeeds and yields the integer coercion 7, matching the coercion
cascade of the specification at that value. -/
theorem C9_witness :
    (⟨"y", [("name", "Y"), ("paused", "1"), ("periodicity", "007")], [], [],
      true, false, some (PParsed.int 7), Option.none⟩ : Loaded).periodicity =
      some (specPeriodicityCoerce "007") :=
  C9_load_periodicity_int_then_float_then_text "cm" "y" "007"
    ⟨[("cm:y", [("name", "Y"), ("paused", "1"), ("periodicity", "007")])],
     [], [], []⟩
    ⟨"y", [("name", "Y"), ("paused", "1"), ("periodicity", "007")], [], [],
      true, false, some (PParsed.int 7), Option.none⟩ rfl rfl

/-- C7 (amended): with verbose false each produced record is the brief
projection consisting of the fields id and name only — slug is not part of
the produced record on either backend (the key-value backend deletes the
slug entry before yielding; the document backend projects onto name and id,
keeping those of the two the stored document possesses). -/
theorem C7_amended_brief_projection_name_id :
    (∀ ns pf lf f s items, redisList ns false pf lf f s = Except.ok items →
      ∀ it ∈ items, ∃ nv iv, it = ListItem.brief [("name", nv), ("id", iv)]) ∧
    (∀ pf lf f ob db, ∀ d ∈ mongoList false pf lf f ob db,
      ∀ kv ∈ d, kv.1 = "name" ∨ kv.1 = "id") := by
  constructor
  · intro ns pf lf f s items hlist it hit
    unfold redisList at hlist
    obtain ⟨i, hi, hp⟩ := listLoop_ok_mem ns false f s _ items hlist it hit
    have hb := processOne_shape_brief ns f s i it hp
    subst hb
    refine ⟨hget s (ns ++ ":" ++ i) "name", some i, ?_⟩
    simp [redisLoadBrief, adel, List.filter]
  · intro pf lf f ob db d hd kv hkv
    unfold mongoList at hd
    rw [if_neg (by simp)] at hd
    obtain ⟨d0, hd0, rfl⟩ := List.mem_map.1 hd
    have h2 := (List.mem_filter.1 hkv).2
    simpa using h2

/-- C7 witness: the brief record of canary a produced by the key-value
backend, and an entry of the document backend's projected record, both fit
the amended name-and-id-only projection. -/
theorem C7_amended_witness :
    (∃ nv iv, ListItem.brief [("name", some "A"), ("id", some "a")] =
      ListItem.brief [("name", nv), ("id", iv)]) ∧
    (("id", MVal.str "c1").1 = "name" ∨ ("id", MVal.str "c1").1 = "id") :=
  ⟨C7_amended_brief_projection_name_id.1 "cm" Option.none Option.none
      Option.none
      ⟨[("cm:slugs", [("a", "a")]),
        ("cm:a", [("slug", "a"), ("name", "A"), ("paused", "0"), ("late", "0")])],
       [], [("cm:deadlines", [("a", 100)])],
       [("cm:ontime", ["a"]), ("cm:active", ["a"])]⟩
      [ListItem.brief [("name", some "A"), ("id", some "a")]] rfl
      (ListItem.brief [("name", some "A"), ("id", some "a")]) (by simp),
   C7_amended_brief_projection_name_id.2 Option.none Option.none Option.none
      Option.none
      [[("id", MVal.str "c1"), ("name", MVal.str "N"), ("slug", MVal.str "s1")]]
      [("id", MVal.str "c1"), ("name", MVal.str "N")] (by decide)
      ("id", MVal.str "c1") (by decide)⟩

/-- Creating a canary succeeds whenever its primary key does not exist and
its slug is unbound: the check phase passes and the write phase of save
runs to completion (paused false with a datetime deadline supplied). -/
theorem redisSave_create_ok (ns id sl nm : String) (t : Rat) (s : RState)
    (hkey : keyExists s (ns ++ ":" ++ id) = false)
    (hslug : hget s (ns ++ ":slugs") sl = Option.none) :
    (redisSave ns id [("id", PyVal.str id), ("slug", PyVal.str sl),
      ("name", PyVal.str nm), ("paused", PyVal.bool false),
      ("deadline", PyVal.time t)] true s).isOk = true := by
  unfold redisSave
  simp [hkey, hslug, hexists, aget, aset, adel, PyVal.serialize, PyVal.truthy,
    PyVal.asTime, List.filter, List.foldl_cons, List.foldl_nil,
    Bind.bind, Except.bind, pure, Except.pure,
    throw, throwThe, MonadExceptOf.throw, Except.isOk, Except.toBool]

/-- C5: deleting an existing canary removes the record and every index
entry, on both backends.  On the key-value backend, after delete of a
canary whose record carries slug sl: get fails with NotFound, resolving sl
fails with NotFound, the id is a member of none of the four membership sets
nor of the deadlines sorted set, the slug binding is gone, no list call of
any verbosity and filters produces an item with that id, and creating a new
canary with the same slug (and the same id) immediately succeeds.  On the
document backend, after delete of the document with id i (whose slug msl is
bound only to i): the delete itself succeeds, get and findIdentifier fail
with NotFound, no list output carries id i, and inserting a new document
with slug msl passes the unique slug index. -/
theorem C5_delete_removes_record_and_indexes
    (ns id sl nm : String) (t : Rat) (s : RState)
    (hslug : hget s (ns ++ ":" ++ id) "slug" = some sl)
    (db : MongoState) (i msl : String) (d0 : MDoc)
    (hd0 : d0 ∈ db) (hd0id : aget d0 "id" = some (MVal.str i))
    (hbind : ∀ d ∈ db, aget d "slug" = some (MVal.str msl) →
      aget d "id" = some (MVal.str i)) :
    (redisLoad ns id (redisDelete ns id s) = .error .notFound) ∧
    (redisFindIdentifier ns sl (redisDelete ns id s) = .error .notFound) ∧
    (smember (redisDelete ns id s) (ns ++ ":active") id = false) ∧
    (smember (redisDelete ns id s) (ns ++ ":paused") id = false) ∧
    (smember (redisDelete ns id s) (ns ++ ":late") id = false) ∧
    (smember (redisDelete ns id s) (ns ++ ":ontime") id = false) ∧
    (zscore (redisDelete ns id s) (ns ++ ":deadlines") id = Option.none) ∧
    (hget (redisDelete ns id s) (ns ++ ":slugs") sl = Option.none) ∧
    (∀ v pf lf items,
        redisList ns v pf lf Option.none (redisDelete ns id s) = .ok items →
        ∀ it ∈ items, itemIsId id it = false) ∧
    ((redisSave ns id [("id", PyVal.str id), ("slug", PyVal.str sl),
        ("name", PyVal.str nm), ("paused", PyVal.bool false),
        ("deadline", PyVal.time t)] true (redisDelete ns id s)).isOk = true) ∧
    ((mongoDelete i db).isOk = true) ∧
    (∀ db2, mongoDelete i db = .ok db2 →
      (mongoGet i db2 = .error .notFound) ∧
      (mongoFindIdentifier msl db2 = .error .notFound) ∧
      (∀ v pf lf ob, ∀ d ∈ mongoList v pf lf Option.none ob db2,
          ¬aget d "id" = some (MVal.str i)) ∧
      (∀ nd : MDoc, aget nd "slug" = some (MVal.str msl) →
          (mongoCreate nd db2).isOk = true)) := by
  have hact : smember (redisDelete ns id s) (ns ++ ":active") id = false := by
    simp only [redisDelete, hslug]
    apply smember_delKey_of_false
    apply smember_delKey_of_false
    apply smember_delKey_of_false
    rw [smember_hdel, smember_zrem]
    apply smember_srem_of_false
    apply smember_srem_of_false
    apply smember_srem_of_false
    exact smember_srem_self _ _ _
  have hpau : smember (redisDelete ns id s) (ns ++ ":paused") id = false := by
    simp only [redisDelete, hslug]
    apply smember_delKey_of_false
    apply smember_delKey_of_false
    apply smember_delKey_of_false
    rw [smember_hdel, smember_zrem]
    apply smember_srem_of_false
    apply smember_srem_of_false
    exact smember_srem_self _ _ _
  have hlate : smember (redisDelete ns id s) (ns ++ ":late") id = false := by
    simp only [redisDelete, hslug]
    apply smember_delKey_of_false
    apply smember_delKey_of_false
    apply smember_delKey_of_false
    rw [smember_hdel, smember_zrem]
    apply smember_srem_of_false
    exact smember_srem_self _ _ _
  have hont : smember (redisDelete ns id s) (ns ++ ":ontime") id = false := by
    simp only [redisDelete, hslug]
    apply smember_delKey_of_false
    apply smember_delKey_of_false
    apply smember_delKey_of_false
    rw [smember_hdel, smember_zrem]
    exact smember_srem_self _ _ _
  have hzs : zscore (redisDelete ns id s) (ns ++ ":deadlines") id = Option.none := by
    simp only [redisDelete, hslug]
    apply zscore_delKey_of_none
    apply zscore_delKey_of_none
    apply zscore_delKey_of_none
    rw [zscore_hdel]
    exact zscore_zrem_self _ _ _
  have hslugsN : hget (redisDelete ns id s) (ns ++ ":slugs") sl = Option.none := by
    simp only [redisDelete, hslug]
    apply hget_delKey_of_none
    apply hget_delKey_of_none
    apply hget_delKey_of_none
    exact hget_hdel_self _ _ _
  have hkeyE : keyExists (redisDelete ns id s) (ns ++ ":" ++ id) = false := by
    simp only [redisDelete, hslug]
    exact keyExists_delKey_self _ _
  have hload : redisLoad ns id (redisDelete ns id s) = .error .notFound := by
    unfold redisLoad
    simp [hkeyE, throw, throwThe, MonadExceptOf.throw, Bind.bind, Except.bind]
  have hfind : redisFindIdentifier ns sl (redisDelete ns id s) = .error .notFound := by
    unfold redisFindIdentifier
    rw [hslugsN]
  have hlist : ∀ v pf lf items,
      redisList ns v pf lf Option.none (redisDelete ns id s) = .ok items →
      ∀ it ∈ items, itemIsId id it = false := by
    intro v pf lf items hl it hit
    by_contra hcon
    rw [Bool.not_eq_false] at hcon
    unfold redisList at hl
    obtain ⟨i0, hi0, hp0⟩ := listLoop_ok_mem ns v Option.none _ _ items hl it hit
    have hii := processOne_isId ns v Option.none _ i0 id it hp0 hcon
    subst hii
    obtain ⟨k, hk, hsm⟩ := mem_sunion_exists _ _ _ hi0
    rcases listSetKeys_mem ns pf lf k hk with rfl | rfl | rfl | rfl
    · rw [hpau] at hsm
      simp at hsm
    · rw [hact] at hsm
      simp at hsm
    · rw [hlate] at hsm
      simp at hsm
    · rw [hont] at hsm
      simp at hsm
  have hcreate := redisSave_create_ok ns id sl nm t (redisDelete ns id s) hkeyE hslugsN
  have hfeq : mongoDelete i db =
      .ok (db.filter (fun d => ¬(aget d "id" == some (MVal.str i)))) := by
    simp only [mongoDelete]
    rw [if_neg (Nat.ne_of_lt (length_filter_lt _ db d0 hd0 (by simp [hd0id])))]
  have hdelOk : (mongoDelete i db).isOk = true := by
    rw [hfeq]
    rfl
  refine ⟨hload, hfind, hact, hpau, hlate, hont, hzs, hslugsN, hlist, hcreate,
    hdelOk, ?_⟩
  intro db2 hdb2
  rw [hfeq] at hdb2
  injection hdb2 with hdb2
  subst hdb2
  refine ⟨?_, ?_, ?_, ?_⟩
  · unfold mongoGet
    rw [List.find?_eq_none.2 ?hall]
    case hall =>
      intro x hx
      have h2 := (List.mem_filter.1 hx).2
      simpa using h2
  · unfold mongoFindIdentifier
    rw [List.find?_eq_none.2 ?hall2]
    case hall2 =>
      intro x hx hslugx
      have hxdb : x ∈ db := (List.mem_filter.1 hx).1
      have hxid := hbind x hxdb (by simpa using hslugx)
      have h2 := (List.mem_filter.1 hx).2
      simp [hxid] at h2
  · intro v pf lf ob d hd
    unfold mongoList at hd
    have hmem : d ∈ db.filter (fun d => ¬(aget d "id" == some (MVal.str i))) ∨
        ∃ d1 ∈ db.filter (fun d => ¬(aget d "id" == some (MVal.str i))),
          d = d1.filter (fun kv => kv.1 = "name" || kv.1 = "id") := by
      cases v with
      | true =>
        rw [if_pos rfl] at hd
        left
        cases ob with
        | none => exact (List.mem_filter.1 hd).1
        | some k =>
          exact (List.mem_filter.1 ((mem_sortBy _ _ _).1 hd)).1
      | false =>
        rw [if_neg (by simp)] at hd
        right
        obtain ⟨d1, hd1, rfl⟩ := List.mem_map.1 hd
        cases ob with
        | none => exact ⟨d1, (List.mem_filter.1 hd1).1, rfl⟩
        | some k =>
          exact ⟨d1, (List.mem_filter.1 ((mem_sortBy _ _ _).1 hd1)).1, rfl⟩
    rcases hmem with hmem | ⟨d1, hd1, rfl⟩
    · have h2 := (List.mem_filter.1 hmem).2
      simpa using h2
    · have h2 := (List.mem_filter.1 hd1).2
      rw [aget_filter_key d1 _ "id" (by intro v2; simp)]
      simpa using h2
  · intro nd hnd
    unfold mongoCreate
    rw [if_neg ?hnone]
    · rfl
    case hnone =>
      rw [hnd]
      intro hany
      obtain ⟨x, hx, hbeq⟩ := List.any_eq_true.1 hany
      have hxdb : x ∈ db := (List.mem_filter.1 hx).1
      have hxid := hbind x hxdb (by simpa using hbeq)
      have h2 := (List.mem_filter.1 hx).2
      simp [hxid] at h2


/-- C5 witness: deleting the stored canary a and the document c1 on the
respective concrete stores leaves get failing with NotFound, lets a canary
with the same slug be created again at once, and the document delete
succeeds. -/
theorem C5_witness :
    redisLoad "cm" "a" (redisDelete "cm" "a"
      ⟨[("cm:slugs", [("a", "a")]),
        ("cm:a", [("slug", "a"), ("name", "A"), ("paused", "0"), ("late", "0")])],
       [], [("cm:deadlines", [("a", 100)])],
       [("cm:ontime", ["a"]), ("cm:active", ["a"])]⟩) = .error .notFound ∧
    (redisSave "cm" "a" [("id", PyVal.str "a"), ("slug", PyVal.str "a"),
        ("name", PyVal.str "B"), ("paused", PyVal.bool false),
        ("deadline", PyVal.time 7)] true (redisDelete "cm" "a"
      ⟨[("cm:slugs", [("a", "a")]),
        ("cm:a", [("slug", "a"), ("name", "A"), ("paused", "0"), ("late", "0")])],
       [], [("cm:deadlines", [("a", 100)])],
       [("cm:ontime", ["a"]), ("cm:active", ["a"])]⟩)).isOk = true ∧
    (mongoDelete "c1"
      [[("id", MVal.str "c1"), ("slug", MVal.str "s1"),
        ("name", MVal.str "N")]]).isOk = true :=
  have h := C5_delete_removes_record_and_indexes "cm" "a" "a" "B" 7
    ⟨[("cm:slugs", [("a", "a")]),
      ("cm:a", [("slug", "a"), ("name", "A"), ("paused", "0"), ("late", "0")])],
     [], [("cm:deadlines", [("a", 100)])],
     [("cm:ontime", ["a"]), ("cm:active", ["a"])]⟩
    rfl
    [[("id", MVal.str "c1"), ("slug", MVal.str "s1"), ("name", MVal.str "N")]]
    "c1" "s1"
    [("id", MVal.str "c1"), ("slug", MVal.str "s1"), ("name", MVal.str "N")]
    (by decide) rfl (by decide)
  ⟨h.1, h.2.2.2.2.2.2.2.2.2.1, h.2.2.2.2.2.2.2.2.2.2.1⟩

end CoalMine
